import Mathlib

/-!
Shallow embedding of the `haikunator` crate (src/src/lib.rs).

The Rust code holds a random source `rng : RefCell<R>` together with the
configuration fields, and exposes `haikunate(&self) -> String`.  We model the
random source abstractly: a state type `σ` and a step function
`genRange : Nat → σ → Nat × σ`, where `genRange n s` models
`rng.gen_range(0..n)` performed in state `s`, returning the drawn value and
the successor state.  Rust's `gen_range(0..n)` panics when the range is empty
(`n = 0`); every potentially panicking operation of the source is embedded as
an `Option`, with `none` standing for a panic.
-/

universe u

/-- The `Haikunator` struct of src/src/lib.rs: the random-source state plus the
configuration fields.  Rust slice `&[&str]` becomes `List String`; `&str`
becomes `String`; `usize` becomes `Nat`. -/
structure Haikunator (σ : Type u) where
  rng : σ
  adjectives : List String
  nouns : List String
  delimiter : String
  token_length : Nat
  token_hex : Bool
  token_chars : String

/-- `rng.gen_range(0..n)`: panics (`none`) when the range `0..n` is empty,
otherwise draws with the abstract step function. -/
def rustGenRange {σ : Type u} (genRange : Nat → σ → Nat × σ) (n : Nat) (s : σ) :
    Option (Nat × σ) :=
  if n = 0 then none else some (genRange n s)

/-- `tokens.chars().nth(index)`: the codepoint at codepoint position `index`
(the `data` field of a Lean `String` is its list of codepoints). -/
def charAt (tokens : String) (index : Nat) : Option Char :=
  tokens.data.get? index

/-- Lines 97-107 of src/src/lib.rs, shared shape of the adjective and the noun
selection: if the word list is non-empty, draw `gen_range(0..len)` and index
the list (indexing out of bounds would panic, hence `Option`); otherwise the
segment is `""` and the random source is untouched. -/
def pickWord {σ : Type u} (genRange : Nat → σ → Nat × σ) (words : List String)
    (s : σ) : Option (String × σ) :=
  if words.isEmpty then some ("", s)
  else
    match rustGenRange genRange words.length s with
    | none => none
    | some (i, s') =>
      match words.get? i with
      | none => none
      | some w => some (w, s')

/-- Lines 113-116 of src/src/lib.rs: the token-building loop.  For each of the
remaining iterations draw `index = gen_range(0..count)` and push
`tokens.chars().nth(index).unwrap()` (a failed `unwrap` is `none`). -/
def tokenLoop {σ : Type u} (genRange : Nat → σ → Nat × σ) (tokens : String)
    (count : Nat) : Nat → String → σ → Option (String × σ)
  | 0, acc, s => some (acc, s)
  | Nat.succ n, acc, s =>
    match rustGenRange genRange count s with
    | none => none
    | some (i, s') =>
      match charAt tokens i with
      | none => none
      | some c => tokenLoop genRange tokens count n (acc.push c) s'

/-- Lines 109-117 of src/src/lib.rs: `count = tokens.chars().count()`; when
`count > 0` run the loop `token_length` times starting from the empty buffer,
otherwise the token is `""`. -/
def buildToken {σ : Type u} (genRange : Nat → σ → Nat × σ) (tokens : String)
    (len : Nat) (s : σ) : Option (String × σ) :=
  if 0 < tokens.data.length then tokenLoop genRange tokens tokens.data.length len "" s
  else some ("", s)

/-- Lines 90-94 of src/src/lib.rs: the effective alphabet is the fixed hex
string when `token_hex`, else `token_chars`. -/
def effectiveAlphabet {σ : Type u} (h : Haikunator σ) : String :=
  if h.token_hex then "0123456789abcdef" else h.token_chars

/-- Lines 119-121 of src/src/lib.rs: `vec![adjective, noun, &token]`, retain
the non-empty entries, join with the delimiter.  Rust `s.is_empty()` tests for
the empty string, embedded as emptiness of the codepoint list. -/
def assemble (delimiter a n t : String) : String :=
  String.intercalate delimiter (List.filter (fun p => !p.data.isEmpty) [a, n, t])

/-- Lines 89-122 of src/src/lib.rs: `Haikunator::haikunate`.  Returns the
produced string and the final random-source state; `none` models a panic. -/
def haikunate {σ : Type u} (genRange : Nat → σ → Nat × σ) (h : Haikunator σ) :
    Option (String × σ) :=
  let tokens := effectiveAlphabet h
  match pickWord genRange h.adjectives h.rng with
  | none => none
  | some (adjective, s1) =>
    match pickWord genRange h.nouns s1 with
    | none => none
    | some (noun, s2) =>
      match buildToken genRange tokens h.token_length s2 with
      | none => none
      | some (token, s3) => some (assemble h.delimiter adjective noun token, s3)

/-- The `Haikunator` value after a `haikunate` call: Rust's `&self` receiver
can mutate only the `rng` field (it alone sits behind the `RefCell`), so the
post-state keeps every configuration field and carries the advanced
random-source state. -/
def haikunateStep {σ : Type u} (genRange : Nat → σ → Nat × σ) (h : Haikunator σ) :
    Option (String × Haikunator σ) :=
  match haikunate genRange h with
  | none => none
  | some (r, s') => some (r, { h with rng := s' })

/-- The sequence of `n` successive `haikunate` calls on one instance, threading
the random-source state; `none` if any call panics. -/
def haikunateRun {σ : Type u} (genRange : Nat → σ → Nat × σ) (h : Haikunator σ) :
    Nat → Option (List String × σ)
  | 0 => some ([], h.rng)
  | Nat.succ n =>
    match haikunate genRange h with
    | none => none
    | some (r, s') =>
      match haikunateRun genRange { h with rng := s' } n with
      | none => none
      | some (rs, sEnd) => some (r :: rs, sEnd)

/-- The list of values drawn by `n` successive `gen_range(0..count)` calls,
together with the final state. -/
def drawTrace {σ : Type u} (genRange : Nat → σ → Nat × σ) (count : Nat) :
    Nat → σ → List Nat × σ
  | 0, s => ([], s)
  | Nat.succ n, s =>
    let p := genRange count s
    let q := drawTrace genRange count n p.2
    (p.1 :: q.1, q.2)

/-- Instrumented random source over `σ × List Nat`: behaves as `genRange` on
the first component and appends the bound of each draw to the log. -/
def loggedGen {σ : Type u} (genRange : Nat → σ → Nat × σ) :
    Nat → σ × List Nat → Nat × (σ × List Nat) :=
  fun n p => ((genRange n p.1).1, ((genRange n p.1).2, p.2 ++ [n]))

/-- The same configuration, run over the instrumented source with an empty
initial log. -/
def withLog {σ : Type u} (h : Haikunator σ) : Haikunator (σ × List Nat) :=
  { rng := (h.rng, []), adjectives := h.adjectives, nouns := h.nouns,
    delimiter := h.delimiter, token_length := h.token_length,
    token_hex := h.token_hex, token_chars := h.token_chars }

/-- The bounds of the uniform draws one `haikunate` call consumes, in order:
one draw over the adjective list when it is non-empty, then one over the noun
list when it is non-empty, then `token_length` draws over the alphabet's
codepoint count when that count is positive. -/
def drawBounds {σ : Type u} (h : Haikunator σ) : List Nat :=
  (if h.adjectives.isEmpty then [] else [h.adjectives.length])
    ++ (if h.nouns.isEmpty then [] else [h.nouns.length])
    ++ (if (effectiveAlphabet h).data.length = 0 then []
        else List.replicate h.token_length (effectiveAlphabet h).data.length)

/-- A concrete deterministic random source used by the witnesses: state is a
`Nat` counter, `gen_range(0..n)` returns `state % n` and increments. -/
def natGen : Nat → Nat → Nat × Nat :=
  fun n s => (s % n, s + 1)

/-- A small concrete configuration used by the witnesses. -/
def sampleConfig : Haikunator Nat :=
  { rng := 0, adjectives := ["flying", "bubbly"], nouns := ["bat", "soda"],
    delimiter := "-", token_length := 4, token_hex := false,
    token_chars := "123" }

/-- A second, field-for-field identical copy of `sampleConfig`, used to
instantiate statements about two identically configured generators. -/
def sampleConfig2 : Haikunator Nat :=
  { rng := 0, adjectives := ["flying", "bubbly"], nouns := ["bat", "soda"],
    delimiter := "-", token_length := 4, token_hex := false,
    token_chars := "123" }

/-- `sampleConfig` with `token_hex` switched on and filler `token_chars`,
mirroring the `it_returns_4_digits_hex_token` test setup. -/
def hexConfig : Haikunator Nat :=
  { rng := 0, adjectives := ["flying", "bubbly"], nouns := ["bat", "soda"],
    delimiter := "-", token_length := 4, token_hex := true,
    token_chars := "ignored" }

/-- Modelled from the spec: the bundled default adjective list.  The file
`src/default_adjectives.rs` backing `DEFAULT_ADJECTIVES` is not under src/;
the spec asks for "a large built-in adjective list" whose entries match
`\w+` in the default output pattern. -/
def DEFAULT_ADJECTIVES : List String :=
  ["autumn", "hidden", "bitter", "misty", "silent", "empty", "dry", "dark",
   "summer", "icy", "delicate", "quiet", "white", "cool", "spring", "winter",
   "patient", "twilight", "crimson", "wispy", "weathered", "blue", "billowing",
   "broken", "cold", "damp", "falling", "frosty", "green", "long"]

/-- Modelled from the spec: the bundled default noun list.  The file
`src/default_nouns.rs` backing `DEFAULT_NOUNS` is not under src/; the spec
asks for "a large built-in noun list" whose entries match `\w+` in the
default output pattern. -/
def DEFAULT_NOUNS : List String :=
  ["waterfall", "river", "breeze", "moon", "rain", "wind", "sea", "morning",
   "snow", "lake", "sunset", "pine", "shadow", "leaf", "dawn", "glitter",
   "forest", "hill", "cloud", "meadow", "sun", "glade", "bird", "brook",
   "butterfly", "bush", "dew", "dust", "field", "fire"]

/-- Lines 50-62 of src/src/lib.rs, `HaikunatorParams::default` fed through
`Haikunator::new`: built-in word lists, delimiter "-", token length 4,
`token_hex` false, alphabet "0123456789", with a caller-supplied random-source
state (`ThreadRng::default` in the Rust code is an opaque seeded source). -/
def defaultHaikunator {σ : Type u} (rng : σ) : Haikunator σ :=
  { rng := rng, adjectives := DEFAULT_ADJECTIVES, nouns := DEFAULT_NOUNS,
    delimiter := "-", token_length := 4, token_hex := false,
    token_chars := "0123456789" }

/-- A regex `\w` word character: ASCII letter, digit or underscore. -/
def isWordChar (c : Char) : Bool :=
  c.isAlpha || c.isDigit || c = '_'

/-- The string matches the pattern of the spec for default output: some
decomposition into non-empty word-character runs joined by single dashes,
ending in exactly four decimal digits. -/
def matchesDefaultPattern (r : String) : Prop :=
  ∃ a n t : String,
    r = a ++ "-" ++ n ++ "-" ++ t
    ∧ a.data ≠ [] ∧ a.data.all isWordChar = true
    ∧ n.data ≠ [] ∧ n.data.all isWordChar = true
    ∧ t.data.length = 4 ∧ t.data.all Char.isDigit = true

/-! ### Helper lemmas -/

theorem mk_data (s : String) : String.mk s.data = s := by cases s; rfl

theorem data_push (s : String) (c : Char) : (s.push c).data = s.data ++ [c] := by
  cases s; rfl

theorem get?_some_getD {α : Type u} (l : List α) (i : Nat) (d : α)
    (h : i < l.length) : l.get? i = some (l.getD i d) := by
  rw [List.get?_eq_get h, List.getD_eq_getElem?_getD l i d, ← List.get?_eq_getElem?,
      List.get?_eq_get h]
  rfl

/-- `pickWord` on the empty word list: empty segment, untouched state. -/
theorem pickWord_nil {σ : Type u} (genRange : Nat → σ → Nat × σ) (s : σ) :
    pickWord genRange [] s = some ("", s) := rfl

/-- `pickWord` on a non-empty word list, given a random source honouring the
range contract: it draws one index below the length and returns that element. -/
theorem pickWord_pos {σ : Type u} (genRange : Nat → σ → Nat × σ)
    (hin : ∀ n s, 0 < n → (genRange n s).1 < n)
    (words : List String) (hw : words ≠ []) (s : σ) :
    pickWord genRange words s =
      some (words.getD (genRange words.length s).1 "",
            (genRange words.length s).2)
      ∧ (genRange words.length s).1 < words.length := by
  have hlen : 0 < words.length := List.length_pos.mpr hw
  have hi := hin words.length s hlen
  refine ⟨?_, hi⟩
  rcases hp : genRange words.length s with ⟨i, s'⟩
  rw [hp] at hi
  simp only at hi
  unfold pickWord rustGenRange
  rw [if_neg (by simpa [List.isEmpty_iff] using hw),
      if_neg (Nat.pos_iff_ne_zero.mp hlen)]
  simp only [hp, get?_some_getD words i "" hi]

/-- `drawTrace` produces one value per draw. -/
theorem drawTrace_length {σ : Type u} (genRange : Nat → σ → Nat × σ)
    (count : Nat) : ∀ (n : Nat) (s : σ), (drawTrace genRange count n s).1.length = n := by
  intro n
  induction n with
  | zero => intro s; rfl
  | succ n ih => intro s; simp [drawTrace, ih]

/-- Every drawn value respects the range bound. -/
theorem drawTrace_mem_lt {σ : Type u} (genRange : Nat → σ → Nat × σ)
    (hin : ∀ n s, 0 < n → (genRange n s).1 < n) (count : Nat) (hc : 0 < count) :
    ∀ (n : Nat) (s : σ) (i : Nat), i ∈ (drawTrace genRange count n s).1 → i < count := by
  intro n
  induction n with
  | zero => intro s i hi; simp [drawTrace] at hi
  | succ n ih =>
    intro s i hi
    simp only [drawTrace, List.mem_cons] at hi
    rcases hi with hi | hi
    · exact hi ▸ hin count s hc
    · exact ih _ i hi

/-- The token loop, for a positive codepoint count within the alphabet and a
conforming random source, appends exactly the codepoints at the drawn
positions and finishes in the trace's final state. -/
theorem tokenLoop_eq {σ : Type u} (genRange : Nat → σ → Nat × σ)
    (hin : ∀ n s, 0 < n → (genRange n s).1 < n)
    (tokens : String) (count : Nat) (hc : 0 < count)
    (hle : count ≤ tokens.data.length) :
    ∀ (n : Nat) (acc : String) (s : σ),
      tokenLoop genRange tokens count n acc s =
        some (String.mk (acc.data ++
                (drawTrace genRange count n s).1.map
                  (fun i => tokens.data.getD i default)),
              (drawTrace genRange count n s).2) := by
  intro n
  induction n with
  | zero =>
    intro acc s
    simp [tokenLoop, drawTrace, mk_data]
  | succ n ih =>
    intro acc s
    rcases hp : genRange count s with ⟨i, s'⟩
    have hi : i < count := by
      have := hin count s hc; rw [hp] at this; exact this
    have hlt : i < tokens.data.length := Nat.lt_of_lt_of_le hi hle
    have hch : charAt tokens i = some (tokens.data.getD i default) :=
      get?_some_getD tokens.data i default hlt
    simp only [tokenLoop, rustGenRange, if_neg (Nat.pos_iff_ne_zero.mp hc), hp, hch]
    rw [ih (acc.push (tokens.data.getD i default)) s']
    simp [drawTrace, hp, data_push]

/-- `buildToken` with a positive codepoint count. -/
theorem buildToken_pos {σ : Type u} (genRange : Nat → σ → Nat × σ)
    (hin : ∀ n s, 0 < n → (genRange n s).1 < n)
    (tokens : String) (hc : 0 < tokens.data.length) (len : Nat) (s : σ) :
    buildToken genRange tokens len s =
      some (String.mk ((drawTrace genRange tokens.data.length len s).1.map
              (fun i => tokens.data.getD i default)),
            (drawTrace genRange tokens.data.length len s).2) := by
  unfold buildToken
  rw [if_pos hc, tokenLoop_eq genRange hin tokens tokens.data.length hc (Nat.le_refl _) len "" s]
  rfl

/-- `buildToken` with an empty alphabet: empty token, untouched state. -/
theorem buildToken_zero {σ : Type u} (genRange : Nat → σ → Nat × σ)
    (tokens : String) (hc : tokens.data.length = 0) (len : Nat) (s : σ) :
    buildToken genRange tokens len s = some ("", s) := by
  unfold buildToken
  rw [if_neg (by omega)]

/-- `buildToken` with `token_length = 0`: empty token, untouched state. -/
theorem buildToken_len_zero {σ : Type u} (genRange : Nat → σ → Nat × σ)
    (tokens : String) (s : σ) :
    buildToken genRange tokens 0 s = some ("", s) := by
  unfold buildToken
  split <;> rfl

/-- Any `pickWord` call with a conforming random source succeeds. -/
theorem pickWord_isSome {σ : Type u} (genRange : Nat → σ → Nat × σ)
    (hin : ∀ n s, 0 < n → (genRange n s).1 < n)
    (words : List String) (s : σ) :
    ∃ w s', pickWord genRange words s = some (w, s') := by
  rcases List.eq_nil_or_concat words with hw | _
  · exact ⟨"", s, hw ▸ pickWord_nil genRange s⟩
  · have hw : words ≠ [] := by rintro rfl; simp_all
    rcases pickWord_pos genRange hin words hw s with ⟨he, _⟩
    exact ⟨_, _, he⟩

/-- Any `buildToken` call with a conforming random source succeeds. -/
theorem buildToken_isSome {σ : Type u} (genRange : Nat → σ → Nat × σ)
    (hin : ∀ n s, 0 < n → (genRange n s).1 < n)
    (tokens : String) (len : Nat) (s : σ) :
    ∃ t s', buildToken genRange tokens len s = some (t, s') := by
  rcases Nat.eq_zero_or_pos tokens.data.length with hc | hc
  · exact ⟨"", s, buildToken_zero genRange tokens hc len s⟩
  · exact ⟨_, _, buildToken_pos genRange hin tokens hc len s⟩

/-- `haikunate` unfolded through the results of its three stages. -/
theorem haikunate_eq_of {σ : Type u} (genRange : Nat → σ → Nat × σ)
    (h : Haikunator σ) (a nn t : String) (s1 s2 s3 : σ)
    (ha : pickWord genRange h.adjectives h.rng = some (a, s1))
    (hn : pickWord genRange h.nouns s1 = some (nn, s2))
    (ht : buildToken genRange (effectiveAlphabet h) h.token_length s2 = some (t, s3)) :
    haikunate genRange h = some (assemble h.delimiter a nn t, s3) := by
  unfold haikunate
  simp only [ha, hn, ht]

/-- With a conforming random source a `haikunate` call always decomposes into
its three successful stages. -/
theorem haikunate_decomp {σ : Type u} (genRange : Nat → σ → Nat × σ)
    (hin : ∀ n s, 0 < n → (genRange n s).1 < n) (h : Haikunator σ) :
    ∃ a s1 nn s2 t s3,
      pickWord genRange h.adjectives h.rng = some (a, s1) ∧
      pickWord genRange h.nouns s1 = some (nn, s2) ∧
      buildToken genRange (effectiveAlphabet h) h.token_length s2 = some (t, s3) ∧
      haikunate genRange h = some (assemble h.delimiter a nn t, s3) := by
  rcases pickWord_isSome genRange hin h.adjectives h.rng with ⟨a, s1, ha⟩
  rcases pickWord_isSome genRange hin h.nouns s1 with ⟨nn, s2, hn⟩
  rcases buildToken_isSome genRange hin (effectiveAlphabet h) h.token_length s2 with ⟨t, s3, ht⟩
  exact ⟨a, s1, nn, s2, t, s3, ha, hn, ht,
    haikunate_eq_of genRange h a nn t s1 s2 s3 ha hn ht⟩

/-- An in-bounds `getD` yields a member of the list. -/
theorem getD_mem {α : Type u} (l : List α) (i : Nat) (d : α) (h : i < l.length) :
    l.getD i d ∈ l :=
  List.get?_mem (get?_some_getD l i d h)

/-- A word picked from a non-empty list belongs to the list. -/
theorem pickWord_mem {σ : Type u} (genRange : Nat → σ → Nat × σ)
    (hin : ∀ n s, 0 < n → (genRange n s).1 < n)
    (words : List String) (hw : words ≠ []) (s : σ) (w : String) (s' : σ)
    (he : pickWord genRange words s = some (w, s')) : w ∈ words := by
  rcases pickWord_pos genRange hin words hw s with ⟨he', hi⟩
  rw [he'] at he
  injection he with he
  injection he with he1 he2
  exact he1 ▸ getD_mem words (genRange words.length s).1 "" hi

/-- Joining three strings with a delimiter. -/
theorem intercalate_three (d a b c : String) :
    String.intercalate d [a, b, c] = a ++ d ++ b ++ d ++ c := by
  simp [String.intercalate, String.intercalate.go]

/-- Among the positions of a list, those holding a given element are exactly
as many as that element's multiplicity. -/
theorem count_positions (l : List Char) (c : Char) :
    ((List.range l.length).filter (fun i => l.getD i default = c)).length
      = l.count c := by
  induction l with
  | nil => rfl
  | cons a l ih =>
    have hmap : ((((List.range l.length).map Nat.succ).filter
          (fun i => (a :: l).getD i default = c)).length)
        = ((List.range l.length).filter (fun i => l.getD i default = c)).length := by
      rw [List.filter_map]
      rw [List.length_map]
      rfl
    rw [List.length_cons, List.range_succ_eq_map]
    by_cases hac : a = c
    · rw [List.filter_cons_of_pos (by simp [hac])]
      rw [List.length_cons, hmap, ih]
      simp [List.count_cons, hac]
    · rw [List.filter_cons_of_neg (by simp [hac])]
      rw [hmap, ih]
      simp [List.count_cons, hac]

/-- A `pickWord` call over the instrumented source behaves as over the plain
source and logs the bound of its draw (none when the list is empty). -/
theorem pickWord_logged {σ : Type u} (genRange : Nat → σ → Nat × σ)
    (words : List String) (s : σ) (log : List Nat) :
    pickWord (loggedGen genRange) words (s, log) =
      match pickWord genRange words s with
      | none => none
      | some (w, s') =>
        some (w, (s', log ++ if words.isEmpty then [] else [words.length])) := by
  by_cases hw : words.isEmpty
  · simp [pickWord, hw]
  · rcases hp : genRange words.length s with ⟨i, s'⟩
    have hn : ¬ words.length = 0 := by
      simp only [Bool.not_eq_true] at hw
      simpa [List.isEmpty_iff, List.length_eq_zero] using hw
    have hlg : loggedGen genRange words.length (s, log)
        = (i, (s', log ++ [words.length])) := by
      simp [loggedGen, hp]
    unfold pickWord rustGenRange
    simp only [Bool.not_eq_true] at hw
    rw [hw]
    simp only [Bool.false_eq_true, if_false, if_neg hn, hp, hlg]
    rcases hg : words.get? i with _ | w <;> simp [hg]

/-- The token loop over the instrumented source behaves as over the plain
source and logs one `count` bound per iteration. -/
theorem tokenLoop_logged {σ : Type u} (genRange : Nat → σ → Nat × σ)
    (tokens : String) (count : Nat) :
    ∀ (n : Nat) (acc : String) (s : σ) (log : List Nat),
      tokenLoop (loggedGen genRange) tokens count n acc (s, log) =
        match tokenLoop genRange tokens count n acc s with
        | none => none
        | some (t, s') => some (t, (s', log ++ List.replicate n count)) := by
  intro n
  induction n with
  | zero => intro acc s log; simp [tokenLoop]
  | succ n ih =>
    intro acc s log
    by_cases hc : count = 0
    · simp [tokenLoop, rustGenRange, hc]
    · rcases hp : genRange count s with ⟨i, s'⟩
      have hlg : loggedGen genRange count (s, log) = (i, (s', log ++ [count])) := by
        simp [loggedGen, hp]
      simp only [tokenLoop, rustGenRange, if_neg hc, hp, hlg]
      rcases hch : charAt tokens i with _ | c
      · simp [hch]
      · simp only [hch, ih]
        rcases htl : tokenLoop genRange tokens count n (acc.push c) s' with _ | ⟨t, s''⟩ <;>
          simp [htl, List.replicate_succ, List.append_assoc]

/-- `buildToken` over the instrumented source behaves as over the plain source
and logs `token_length` copies of the codepoint count when it is positive. -/
theorem buildToken_logged {σ : Type u} (genRange : Nat → σ → Nat × σ)
    (tokens : String) (len : Nat) (s : σ) (log : List Nat) :
    buildToken (loggedGen genRange) tokens len (s, log) =
      match buildToken genRange tokens len s with
      | none => none
      | some (t, s') =>
        some (t, (s', log ++ if tokens.data.length = 0 then []
                             else List.replicate len tokens.data.length)) := by
  unfold buildToken
  by_cases hc : 0 < tokens.data.length
  · rw [if_pos hc, if_pos hc, tokenLoop_logged]
    have hne : ¬ tokens.data.length = 0 := by omega
    rcases htl : tokenLoop genRange tokens tokens.data.length len "" s with _ | ⟨t, s'⟩
    · simp [htl]
    · simp only [htl]
      rw [if_neg hne]
  · have h0 : tokens.data.length = 0 := by omega
    simp [hc, h0]

/-! ### Claim theorems -/

/-- Claim C1: for every configuration (including empty adjective list, empty
noun list, `token_length = 0`, and empty alphabet), `haikunate` over a random
source honouring the `gen_range` contract returns a string and never panics:
no embedded panic point (`gen_range` on an empty range, list indexing, or the
`unwrap` on the selected token codepoint) is reached. -/
theorem haikunate_never_panics {σ : Type u} (genRange : Nat → σ → Nat × σ)
    (hin : ∀ n s, 0 < n → (genRange n s).1 < n) (h : Haikunator σ) :
    (haikunate genRange h).isSome = true := by
  rcases haikunate_decomp genRange hin h with ⟨a, s1, nn, s2, t, s3, _, _, _, he⟩
  rw [he]
  rfl

theorem haikunate_never_panics_witness :
    (haikunate natGen sampleConfig).isSome = true :=
  haikunate_never_panics natGen (fun _ s hp => Nat.mod_lt s hp) sampleConfig

/-- Claim C2: the token segment: with `count` the number of codepoints of the
effective alphabet, if `count = 0` or `token_length = 0` the token is the
empty string; otherwise the loop draws `token_length` indices, each below
`count`, with `gen_range(0..count)`, and the token consists of exactly the
codepoints of the alphabet at those codepoint positions, in draw order. -/
theorem token_segment_spec {σ : Type u} (genRange : Nat → σ → Nat × σ)
    (hin : ∀ n s, 0 < n → (genRange n s).1 < n) (h : Haikunator σ) (s : σ) :
    (((effectiveAlphabet h).data.length = 0 ∨ h.token_length = 0) →
        buildToken genRange (effectiveAlphabet h) h.token_length s = some ("", s))
    ∧ (0 < (effectiveAlphabet h).data.length →
        ∃ idxs s',
          drawTrace genRange (effectiveAlphabet h).data.length h.token_length s
            = (idxs, s')
          ∧ idxs.length = h.token_length
          ∧ (∀ i ∈ idxs, i < (effectiveAlphabet h).data.length)
          ∧ buildToken genRange (effectiveAlphabet h) h.token_length s =
              some (String.mk (idxs.map
                      (fun i => (effectiveAlphabet h).data.getD i default)), s')
          ∧ (idxs.map (fun i => (effectiveAlphabet h).data.getD i default)).length
              = h.token_length) := by
  constructor
  · rintro (hc | hl)
    · exact buildToken_zero genRange (effectiveAlphabet h) hc h.token_length s
    · rw [hl]
      exact buildToken_len_zero genRange (effectiveAlphabet h) s
  · intro hc
    refine ⟨(drawTrace genRange (effectiveAlphabet h).data.length h.token_length s).1,
            (drawTrace genRange (effectiveAlphabet h).data.length h.token_length s).2,
            rfl, drawTrace_length genRange _ _ _,
            fun i hi => drawTrace_mem_lt genRange hin _ hc _ _ i hi,
            buildToken_pos genRange hin (effectiveAlphabet h) hc h.token_length s,
            by rw [List.length_map, drawTrace_length]⟩

theorem token_segment_spec_witness :
    0 < (effectiveAlphabet sampleConfig).data.length ∧
    (∃ idxs s',
      drawTrace natGen (effectiveAlphabet sampleConfig).data.length
          sampleConfig.token_length 2
        = (idxs, s')
      ∧ idxs.length = sampleConfig.token_length
      ∧ (∀ i ∈ idxs, i < (effectiveAlphabet sampleConfig).data.length)
      ∧ buildToken natGen (effectiveAlphabet sampleConfig) sampleConfig.token_length 2 =
          some (String.mk (idxs.map
                  (fun i => (effectiveAlphabet sampleConfig).data.getD i default)), s')
      ∧ (idxs.map (fun i => (effectiveAlphabet sampleConfig).data.getD i default)).length
          = sampleConfig.token_length) :=
  ⟨by decide,
   (token_segment_spec natGen (fun _ s hp => Nat.mod_lt s hp) sampleConfig 2).2
     (by decide)⟩

/-- Claim C3: `haikunate` assembles its result from the adjective, noun and
token segments in that fixed order, drops every empty segment, and joins the
rest with the delimiter; when all three segments are empty the result is the
empty string. -/
theorem assembly_spec {σ : Type u} (genRange : Nat → σ → Nat × σ)
    (h : Haikunator σ) (a nn t : String) (s1 s2 s3 : σ)
    (ha : pickWord genRange h.adjectives h.rng = some (a, s1))
    (hn : pickWord genRange h.nouns s1 = some (nn, s2))
    (ht : buildToken genRange (effectiveAlphabet h) h.token_length s2 = some (t, s3)) :
    haikunate genRange h =
      some (String.intercalate h.delimiter
              (List.filter (fun p => !p.data.isEmpty) [a, nn, t]), s3)
    ∧ (a = "" → nn = "" → t = "" → haikunate genRange h = some ("", s3)) := by
  have he := haikunate_eq_of genRange h a nn t s1 s2 s3 ha hn ht
  refine ⟨he, ?_⟩
  rintro rfl rfl rfl
  rw [he]
  rfl

theorem assembly_spec_witness :
    haikunate natGen sampleConfig =
      some (String.intercalate sampleConfig.delimiter
              (List.filter (fun p => !p.data.isEmpty) ["flying", "soda", "3123"]), 6)
    ∧ ("flying" = "" → "soda" = "" → "3123" = "" →
        haikunate natGen sampleConfig = some ("", 6)) :=
  assembly_spec natGen sampleConfig "flying" "soda" "3123" 1 2 6
    (by decide) (by decide) (by decide)

/-- Claim C4: with `token_hex = true` the effective alphabet is exactly
"0123456789abcdef" whatever `token_chars` holds, so every codepoint of the
token is a lowercase hex digit and the token has exactly `token_length`
codepoints; with `token_hex = false` the effective alphabet is `token_chars`
verbatim. -/
theorem token_hex_spec {σ : Type u} (genRange : Nat → σ → Nat × σ)
    (hin : ∀ n s, 0 < n → (genRange n s).1 < n) (h : Haikunator σ) (s : σ) :
    (h.token_hex = true →
        effectiveAlphabet h = "0123456789abcdef"
        ∧ ∀ t s',
            buildToken genRange (effectiveAlphabet h) h.token_length s = some (t, s') →
            t.data.length = h.token_length
            ∧ ∀ c ∈ t.data, c ∈ "0123456789abcdef".data)
    ∧ (h.token_hex = false → effectiveAlphabet h = h.token_chars) := by
  constructor
  · intro hhex
    have halpha : effectiveAlphabet h = "0123456789abcdef" := by
      unfold effectiveAlphabet
      rw [hhex]
      rfl
    refine ⟨halpha, ?_⟩
    intro t s' hbt
    have hc : 0 < (effectiveAlphabet h).data.length := by
      rw [halpha]
      decide
    rw [buildToken_pos genRange hin (effectiveAlphabet h) hc h.token_length s] at hbt
    injection hbt with hbt
    injection hbt with hbt1 hbt2
    constructor
    · rw [← hbt1]
      show ((drawTrace genRange (effectiveAlphabet h).data.length h.token_length s).1.map
              (fun i => (effectiveAlphabet h).data.getD i default)).length = h.token_length
      rw [List.length_map, drawTrace_length]
    · intro c hcmem
      rw [← hbt1] at hcmem
      have hcmem' : c ∈ (drawTrace genRange (effectiveAlphabet h).data.length
          h.token_length s).1.map (fun i => (effectiveAlphabet h).data.getD i default) :=
        hcmem
      rcases List.mem_map.mp hcmem' with ⟨i, hi, hci⟩
      have hilt : i < (effectiveAlphabet h).data.length :=
        drawTrace_mem_lt genRange hin _ hc _ _ i hi
      rw [← hci, ← halpha]
      exact getD_mem (effectiveAlphabet h).data i default hilt
  · intro hhex
    unfold effectiveAlphabet
    rw [hhex]
    rfl

theorem token_hex_spec_witness :
    (hexConfig.token_hex = true →
        effectiveAlphabet hexConfig = "0123456789abcdef"
        ∧ ∀ t s',
            buildToken natGen (effectiveAlphabet hexConfig) hexConfig.token_length 0
              = some (t, s') →
            t.data.length = hexConfig.token_length
            ∧ ∀ c ∈ t.data, c ∈ "0123456789abcdef".data)
    ∧ (hexConfig.token_hex = false → effectiveAlphabet hexConfig = hexConfig.token_chars) :=
  token_hex_spec natGen (fun _ s hp => Nat.mod_lt s hp) hexConfig 0

/-- Claim C5: the adjective segment is an element of the adjective list at the
index drawn by `gen_range(0..len)` (which lies in `[0, len)`) when the list
is non-empty, and the empty string with the state untouched when it is empty;
the noun segment follows the identical policy (`haikunate` applies `pickWord`
to `adjectives` and then to `nouns`). -/
theorem word_selection_spec {σ : Type u} (genRange : Nat → σ → Nat × σ)
    (hin : ∀ n s, 0 < n → (genRange n s).1 < n) (words : List String) (s : σ) :
    (words = [] → pickWord genRange words s = some ("", s))
    ∧ (words ≠ [] →
        pickWord genRange words s =
          some (words.getD (genRange words.length s).1 "",
                (genRange words.length s).2)
        ∧ (genRange words.length s).1 < words.length
        ∧ words.getD (genRange words.length s).1 "" ∈ words) := by
  constructor
  · rintro rfl
    exact pickWord_nil genRange s
  · intro hw
    rcases pickWord_pos genRange hin words hw s with ⟨he, hi⟩
    exact ⟨he, hi, getD_mem words _ "" hi⟩

theorem word_selection_spec_witness :
    ((["flying", "bubbly"] : List String) = [] →
        pickWord natGen ["flying", "bubbly"] 0 = some ("", 0))
    ∧ ((["flying", "bubbly"] : List String) ≠ [] →
        pickWord natGen ["flying", "bubbly"] 0 =
          some ((["flying", "bubbly"] : List String).getD
                  (natGen (["flying", "bubbly"] : List String).length 0).1 "",
                (natGen (["flying", "bubbly"] : List String).length 0).2)
        ∧ (natGen (["flying", "bubbly"] : List String).length 0).1
            < (["flying", "bubbly"] : List String).length
        ∧ (["flying", "bubbly"] : List String).getD
            (natGen (["flying", "bubbly"] : List String).length 0).1 ""
            ∈ (["flying", "bubbly"] : List String)) :=
  word_selection_spec natGen (fun _ s hp => Nat.mod_lt s hp) ["flying", "bubbly"] 0

/-- Claim C7: two generators with identical configurations and identically
seeded deterministic random sources produce the same sequence of outputs over
any number of `haikunate` calls. -/
theorem haikunate_reproducible {σ : Type u} (genRange : Nat → σ → Nat × σ)
    (h1 h2 : Haikunator σ)
    (hrng : h1.rng = h2.rng) (hadj : h1.adjectives = h2.adjectives)
    (hnoun : h1.nouns = h2.nouns) (hdel : h1.delimiter = h2.delimiter)
    (hlen : h1.token_length = h2.token_length) (hhex : h1.token_hex = h2.token_hex)
    (hch : h1.token_chars = h2.token_chars) (n : Nat) :
    haikunateRun genRange h1 n = haikunateRun genRange h2 n := by
  obtain ⟨r1, a1, n1, d1, l1, x1, c1⟩ := h1
  obtain ⟨r2, a2, n2, d2, l2, x2, c2⟩ := h2
  simp only at hrng hadj hnoun hdel hlen hhex hch
  subst hrng
  subst hadj
  subst hnoun
  subst hdel
  subst hlen
  subst hhex
  subst hch
  rfl

theorem haikunate_reproducible_witness :
    haikunateRun natGen sampleConfig 2 = haikunateRun natGen sampleConfig2 2 :=
  haikunate_reproducible natGen sampleConfig sampleConfig2
    rfl rfl rfl rfl rfl rfl rfl 2

/-- Claim C8: a `haikunate` call's only side effect is advancing the
random-source state: the call succeeds and the configuration fields
`adjectives`, `nouns`, `delimiter`, `token_length`, `token_hex` and
`token_chars` of the post-state equal those of the pre-state. -/
theorem haikunate_frame {σ : Type u} (genRange : Nat → σ → Nat × σ)
    (hin : ∀ n s, 0 < n → (genRange n s).1 < n) (h : Haikunator σ) :
    ∃ r h', haikunateStep genRange h = some (r, h')
      ∧ h'.adjectives = h.adjectives ∧ h'.nouns = h.nouns
      ∧ h'.delimiter = h.delimiter ∧ h'.token_length = h.token_length
      ∧ h'.token_hex = h.token_hex ∧ h'.token_chars = h.token_chars := by
  rcases haikunate_decomp genRange hin h with ⟨a, s1, nn, s2, t, s3, _, _, _, he⟩
  refine ⟨assemble h.delimiter a nn t, { h with rng := s3 },
          ?_, rfl, rfl, rfl, rfl, rfl, rfl⟩
  unfold haikunateStep
  rw [he]

theorem haikunate_frame_witness :
    ∃ r h', haikunateStep natGen sampleConfig = some (r, h')
      ∧ h'.adjectives = sampleConfig.adjectives ∧ h'.nouns = sampleConfig.nouns
      ∧ h'.delimiter = sampleConfig.delimiter
      ∧ h'.token_length = sampleConfig.token_length
      ∧ h'.token_hex = sampleConfig.token_hex
      ∧ h'.token_chars = sampleConfig.token_chars :=
  haikunate_frame natGen (fun _ s hp => Nat.mod_lt s hp) sampleConfig

/-- Claim C9: with a duplicate-bearing alphabet and a positive token length,
the token loop draws positions uniformly over the raw codepoint positions
without deduplication (the built token indexes the alphabet as given), and
the number of positions holding a given character equals that character's
multiplicity in the alphabet — so under a uniform draw the character's
probability is proportional to its multiplicity. -/
theorem duplicate_alphabet_multiplicity {σ : Type u} (genRange : Nat → σ → Nat × σ)
    (hin : ∀ n s, 0 < n → (genRange n s).1 < n)
    (tokens : String) (hdup : ¬ tokens.data.Nodup) (len : Nat) (_hlen : 0 < len)
    (s : σ) :
    (0 < tokens.data.length
      ∧ buildToken genRange tokens len s =
          some (String.mk ((drawTrace genRange tokens.data.length len s).1.map
                  (fun i => tokens.data.getD i default)),
                (drawTrace genRange tokens.data.length len s).2))
    ∧ ∀ c : Char,
        ((List.range tokens.data.length).filter
            (fun i => tokens.data.getD i default = c)).length
          = tokens.data.count c := by
  have hc : 0 < tokens.data.length := by
    cases hd : tokens.data with
    | nil => exact absurd (by rw [hd]; exact List.nodup_nil) hdup
    | cons x xs => simp [hd]
  exact ⟨⟨hc, buildToken_pos genRange hin tokens hc len s⟩,
         fun c => count_positions tokens.data c⟩

theorem duplicate_alphabet_multiplicity_witness :
    ¬ ("121".data.Nodup) ∧ 0 < 2 ∧
    ((0 < "121".data.length
      ∧ buildToken natGen "121" 2 0 =
          some (String.mk ((drawTrace natGen "121".data.length 2 0).1.map
                  (fun i => "121".data.getD i default)),
                (drawTrace natGen "121".data.length 2 0).2))
    ∧ ∀ c : Char,
        ((List.range "121".data.length).filter
            (fun i => "121".data.getD i default = c)).length
          = "121".data.count c) :=
  ⟨by decide, by decide,
   duplicate_alphabet_multiplicity natGen (fun _ s hp => Nat.mod_lt s hp)
     "121" (by decide) 2 (by decide) 0⟩

/-- Claim C6: every successful output of the default-constructed generator
(built-in word lists, delimiter "-", token length 4, `token_hex` false,
alphabet "0123456789") matches the pattern of a word, a dash, a word, a dash
and exactly four decimal digits. -/
theorem default_matches_pattern {σ : Type u} (genRange : Nat → σ → Nat × σ)
    (hin : ∀ n s, 0 < n → (genRange n s).1 < n) (rng : σ) (r : String) (sEnd : σ)
    (he : haikunate genRange (defaultHaikunator rng) = some (r, sEnd)) :
    matchesDefaultPattern r := by
  have hadjW : ∀ a ∈ DEFAULT_ADJECTIVES, a.data ≠ [] ∧ a.data.all isWordChar = true := by
    decide
  have hnounW : ∀ a ∈ DEFAULT_NOUNS, a.data ≠ [] ∧ a.data.all isWordChar = true := by
    decide
  have hdig : ∀ c ∈ ("0123456789" : String).data, c.isDigit = true := by
    decide
  rcases haikunate_decomp genRange hin (defaultHaikunator rng)
    with ⟨a, s1, nn, s2, t, s3, ha, hn, ht, he'⟩
  rw [he] at he'
  injection he' with he'
  injection he' with her hes
  have hamem : a ∈ DEFAULT_ADJECTIVES :=
    pickWord_mem genRange hin DEFAULT_ADJECTIVES (by decide) rng a s1 ha
  have hnmem : nn ∈ DEFAULT_NOUNS :=
    pickWord_mem genRange hin DEFAULT_NOUNS (by decide) s1 nn s2 hn
  have halpha : effectiveAlphabet (defaultHaikunator rng) = "0123456789" := rfl
  have hc : 0 < (effectiveAlphabet (defaultHaikunator rng)).data.length := by
    rw [halpha]
    decide
  rw [buildToken_pos genRange hin _ hc _ s2] at ht
  injection ht with ht
  injection ht with ht1 ht2
  have htdata : t.data =
      (drawTrace genRange (effectiveAlphabet (defaultHaikunator rng)).data.length
        (defaultHaikunator rng).token_length s2).1.map
        (fun i => (effectiveAlphabet (defaultHaikunator rng)).data.getD i default) := by
    rw [← ht1]
  have htlen : t.data.length = 4 := by
    rw [htdata, List.length_map, drawTrace_length]
    rfl
  have htdig : t.data.all Char.isDigit = true := by
    rw [List.all_eq_true]
    intro c hcmem
    rw [htdata] at hcmem
    rcases List.mem_map.mp hcmem with ⟨i, hi, hci⟩
    have hilt : i < (effectiveAlphabet (defaultHaikunator rng)).data.length :=
      drawTrace_mem_lt genRange hin _ hc _ _ i hi
    have : (effectiveAlphabet (defaultHaikunator rng)).data.getD i default
        ∈ ("0123456789" : String).data := by
      rw [← halpha]
      exact getD_mem _ i default hilt
    rw [← hci]
    exact hdig _ this
  have haW := hadjW a hamem
  have hnW := hnounW nn hnmem
  have hfa : (!a.data.isEmpty) = true := by
    simp [List.isEmpty_iff, haW.1]
  have hfn : (!nn.data.isEmpty) = true := by
    simp [List.isEmpty_iff, hnW.1]
  have hft : (!t.data.isEmpty) = true := by
    have : t.data ≠ [] := by
      intro h0
      rw [h0] at htlen
      exact absurd htlen (by decide)
    simp [List.isEmpty_iff, this]
  have hfilter : List.filter (fun p => !p.data.isEmpty) [a, nn, t] = [a, nn, t] := by
    simp [List.filter_cons, hfa, hfn, hft]
  have hassemble : assemble "-" a nn t = a ++ "-" ++ nn ++ "-" ++ t := by
    unfold assemble
    rw [hfilter]
    exact intercalate_three "-" a nn t
  refine ⟨a, nn, t, ?_, haW.1, haW.2, hnW.1, hnW.2, htlen, htdig⟩
  rw [her]
  exact hassemble

theorem default_matches_pattern_witness :
    matchesDefaultPattern "autumn-river-2345" :=
  default_matches_pattern natGen (fun _ s hp => Nat.mod_lt s hp) 0
    "autumn-river-2345" 6 (by decide)

/-- Claim C10: one `haikunate` call consumes uniform draws in exactly this
order and quantity: one draw bounded by the adjective-list length iff that
list is non-empty, then one bounded by the noun-list length iff that list is
non-empty, then exactly `token_length` draws bounded by the alphabet's
codepoint count iff that count is positive, and no other draws: running the
same call over the bound-logging instrumentation of the same source produces
the same output and exactly the log `drawBounds`. -/
theorem draw_consumption_spec {σ : Type u} (genRange : Nat → σ → Nat × σ)
    (hin : ∀ n s, 0 < n → (genRange n s).1 < n) (h : Haikunator σ) :
    ∃ r s', haikunate genRange h = some (r, s')
      ∧ haikunate (loggedGen genRange) (withLog h) = some (r, (s', drawBounds h)) := by
  rcases haikunate_decomp genRange hin h with ⟨a, s1, nn, s2, t, s3, ha, hn, ht, he⟩
  refine ⟨assemble h.delimiter a nn t, s3, he, ?_⟩
  have ha' : pickWord (loggedGen genRange) h.adjectives (h.rng, ([] : List Nat)) =
      some (a, (s1, if h.adjectives.isEmpty then [] else [h.adjectives.length])) := by
    rw [pickWord_logged, ha]
    rfl
  have hn' : pickWord (loggedGen genRange) h.nouns
      (s1, if h.adjectives.isEmpty then [] else [h.adjectives.length]) =
      some (nn, (s2, (if h.adjectives.isEmpty then [] else [h.adjectives.length])
                     ++ (if h.nouns.isEmpty then [] else [h.nouns.length]))) := by
    rw [pickWord_logged, hn]
  have ht' : buildToken (loggedGen genRange) (effectiveAlphabet h) h.token_length
      (s2, (if h.adjectives.isEmpty then [] else [h.adjectives.length])
           ++ (if h.nouns.isEmpty then [] else [h.nouns.length])) =
      some (t, (s3, ((if h.adjectives.isEmpty then [] else [h.adjectives.length])
                     ++ (if h.nouns.isEmpty then [] else [h.nouns.length]))
                    ++ (if (effectiveAlphabet h).data.length = 0 then []
                        else List.replicate h.token_length
                               (effectiveAlphabet h).data.length))) := by
    rw [buildToken_logged, ht]
  exact haikunate_eq_of (loggedGen genRange) (withLog h) a nn t _ _ _ ha' hn' ht'

theorem draw_consumption_spec_witness :
    ∃ r s', haikunate natGen sampleConfig = some (r, s')
      ∧ haikunate (loggedGen natGen) (withLog sampleConfig)
          = some (r, (s', drawBounds sampleConfig)) :=
  draw_consumption_spec natGen (fun _ s hp => Nat.mod_lt s hp) sampleConfig
